import Mathlib

/-!
Verification of the `flag` package (a wrapper around Go's standard `flag`
package that sources default values from environment variables) against its
specification.

The Go sources are embedded shallowly:

* machine integers are `Nat`/`Int` with explicit range checks where the Go
  code checks ranges (`strconv` range errors become `none`);
* fallible library calls (`strconv.ParseInt`, `strconv.ParseUint`,
  `strconv.ParseFloat`, `time.ParseDuration`) are modelled as `Option`-valued
  functions following the Go standard library's algorithms;
* the process environment is an explicit map `String → Option String`
  (`os.LookupEnv`), and the package-level `envPrefix` variable is passed
  explicitly to each function that reads it;
* Go strings are `String`/`List Char`.
-/

namespace GoFlag

/-! ## Character helpers (Go `strconv`'s `lower` and digit decoding) -/

/-- Go `strconv`'s `lower(c) = c | ('x' - 'X')`: sets bit 5, mapping ASCII
upper-case letters to lower case. -/
def lowerNat (n : Nat) : Nat := n ||| 32

/-- Digit value of a character as in `strconv`'s conversion loop:
`'0'..'9'` are 0–9, letters (either case) are 10–35, everything else is
not a digit. -/
def digitVal (c : Char) : Option Nat :=
  if 48 ≤ c.toNat ∧ c.toNat ≤ 57 then some (c.toNat - 48)
  else if 97 ≤ lowerNat c.toNat ∧ lowerNat c.toNat ≤ 122 then some (lowerNat c.toNat - 87)
  else none

/-- Whether `c` is a valid digit for `base`. -/
def isBaseDigit (base : Nat) (c : Char) : Bool :=
  match digitVal c with
  | some d => decide (d < base)
  | none => false

/-- ASCII decimal digit test (`'0' <= c && c <= '9'` in the Go sources). -/
def isDigitChar (c : Char) : Bool :=
  decide (48 ≤ c.toNat ∧ c.toNat ≤ 57)

/-! ## `strconv.ParseUint` / `strconv.ParseInt` with base 0, bitSize 64

Base 0 means the base is read off the literal: `0b`/`0o`/`0x` prefixes,
a bare leading `0` meaning octal, decimal otherwise; underscore digit
separators are allowed, subject to `underscoreOK`. -/

/-- Go `strconv.underscoreOK`: reports whether the underscores in a numeric
literal are syntactically well placed (only between digits, or directly
after a base prefix). The scanner state `saw` is one of `'^'` (start),
`'0'` (digit), `'_'` (underscore), `'!'` (other), exactly as in the Go code. -/
def uOKLoop (hex : Bool) (saw : Char) : List Char → Bool
  | [] => saw != '_'
  | c :: cs =>
    if isDigitChar c ∨ (hex ∧ 97 ≤ lowerNat c.toNat ∧ lowerNat c.toNat ≤ 102) then
      uOKLoop hex '0' cs
    else if c = '_' then
      if saw ≠ '0' then false else uOKLoop hex '_' cs
    else if saw = '_' then false
    else uOKLoop hex '!' cs

/-- Go `strconv.underscoreOK` (sign stripping and base-prefix detection,
then the scan loop). -/
def underscoreOK (s : List Char) : Bool :=
  let s1 := match s with
    | c :: t => if c = '-' ∨ c = '+' then t else s
    | [] => s
  match s1 with
  | '0' :: c :: t =>
    if lowerNat c.toNat = 98 ∨ lowerNat c.toNat = 111 ∨ lowerNat c.toNat = 120 then
      uOKLoop (lowerNat c.toNat = 120) '0' t
    else uOKLoop false '^' s1
  | _ => uOKLoop false '^' s1

/-- Base detection of `strconv.ParseUint` with base argument 0: `0b`/`0o`/`0x`
prefixes (each requiring at least one further character), a bare leading `0`
meaning octal, decimal otherwise. Returns the detected base and the remaining
digit characters. -/
def baseAndDigits (s : List Char) : Nat × List Char :=
  match s with
  | [] => (10, [])
  | c0 :: rest =>
    if c0 = '0' then
      match rest with
      | c :: t =>
        if t ≠ [] ∧ lowerNat c.toNat = 98 then (2, t)
        else if t ≠ [] ∧ lowerNat c.toNat = 111 then (8, t)
        else if t ≠ [] ∧ lowerNat c.toNat = 120 then (16, t)
        else (8, rest)
      | [] => (8, [])
    else (10, c0 :: rest)

/-- The digit-accumulation loop of `strconv.ParseUint` (with base 0, so `'_'`
is tolerated in the scan and checked afterwards by `underscoreOK`). Returns
the accumulated value and whether an underscore was seen; `none` on a
character that is not a digit of `base`.

Go checks for overflow inside the loop and we compare against the maximum at
the end; since the accumulator only grows, both report an error on exactly
the same inputs, and the `Option` results agree. -/
def scanDigitsAux (base : Nat) (acc : Nat) (und : Bool) : List Char → Option (Nat × Bool)
  | [] => some (acc, und)
  | c :: cs =>
    if c = '_' then scanDigitsAux base acc true cs
    else
      match digitVal c with
      | none => none
      | some d => if base ≤ d then none else scanDigitsAux base (base * acc + d) und cs

/-- Model of `strconv.ParseUint(s, 0, 64)`: `none` on any syntax or range error. -/
def goParseUint (s : List Char) : Option Nat :=
  if s = [] then none
  else
    let bd := baseAndDigits s
    match scanDigitsAux bd.1 0 false bd.2 with
    | none => none
    | some (v, und) =>
      if und = true ∧ underscoreOK s = false then none
      else if 2 ^ 64 - 1 < v then none
      else some v

/-- Model of `strconv.ParseInt(s, 0, 64)`: optional sign, then `ParseUint`, then the
`int64` range check. `none` on any syntax or range error. -/
def goParseInt (s : List Char) : Option ℤ :=
  match s with
  | [] => none
  | c :: rest =>
    let neg := c = '-'
    let digits := if c = '+' ∨ c = '-' then rest else c :: rest
    match goParseUint digits with
    | none => none
    | some un =>
      if neg then (if 2 ^ 63 < un then none else some (-(un : ℤ)))
      else (if 2 ^ 63 ≤ un then none else some (un : ℤ))

/-- Value of a digit string in a given base (most significant digit first). -/
def digitsToNat (base : Nat) (ds : List Char) : Nat :=
  ds.foldl (fun a c => base * a + (digitVal c).getD 0) 0

/-! ## `strconv.ParseFloat(s, 64)`

The parser follows Go's `special` / `readFloat` syntax: optional sign;
case-insensitive `inf`/`infinity` (signed) and `nan` (unsigned); otherwise a
decimal mantissa with optional fraction and optional `e`-exponent, or a
`0x` hexadecimal mantissa with a mandatory `p`-exponent; underscore digit
separators subject to `underscoreOK`; the whole string must be consumed.

The numeric result is the exact rational value of the literal. Go rounds it
to the nearest IEEE-754 binary64 and reports a range error beyond the largest
finite value; that rounding is not modelled — the claims settled here depend
only on whether parsing succeeds and on the wrapper's fallback structure. -/

/-- A Go `float64` result at the granularity this development needs:
a finite value (kept exact as a rational), an infinity, or a NaN. -/
inductive GoFloat where
  | finite (q : ℚ)
  | inf (neg : Bool)
  | nan
deriving DecidableEq

/-- Case-insensitive (ASCII-folded, via `lowerNat`) comparison of a scanned
character against a lower-case template character, as in `strconv.special`. -/
def foldEqChar (c t : Char) : Bool := lowerNat c.toNat == t.toNat

/-- Whole-list case-insensitive match against a lower-case template. -/
def foldEqList : List Char → List Char → Bool
  | [], [] => true
  | c :: cs, t :: ts => foldEqChar c t && foldEqList cs ts
  | _, _ => false

/-- The mantissa loop of `strconv.readFloat`: consumes digits of `base`,
at most one `'.'`, and underscores; returns the mantissa value, the number of
digits after the dot, whether a dot and whether any digit was seen, whether an
underscore was seen, and the unconsumed rest. -/
def scanMantAux (base : Nat) (mant fracCount : Nat) (sawDot sawDig und : Bool) :
    List Char → Nat × Nat × Bool × Bool × Bool × List Char
  | [] => (mant, fracCount, sawDot, sawDig, und, [])
  | c :: cs =>
    if c = '_' then scanMantAux base mant fracCount sawDot sawDig true cs
    else if c = '.' then
      if sawDot then (mant, fracCount, sawDot, sawDig, und, c :: cs)
      else scanMantAux base mant fracCount true sawDig und cs
    else
      match digitVal c with
      | some d =>
        if d < base then
          scanMantAux base (base * mant + d) (if sawDot then fracCount + 1 else fracCount)
            sawDot true und cs
        else (mant, fracCount, sawDot, sawDig, und, c :: cs)
      | none => (mant, fracCount, sawDot, sawDig, und, c :: cs)

/-- The exponent digit loop of `strconv.readFloat` (decimal digits and
underscores; Go's cap of the exponent at ±10000 only matters for values far
outside binary64 range and is not modelled). Returns the exponent value,
whether a digit was seen, whether an underscore was seen, and the rest. -/
def scanExpDigits (acc : Nat) (sawDig und : Bool) : List Char → Nat × Bool × Bool × List Char
  | [] => (acc, sawDig, und, [])
  | c :: cs =>
    if c = '_' then scanExpDigits acc sawDig true cs
    else if isDigitChar c then scanExpDigits (10 * acc + (c.toNat - 48)) true und cs
    else (acc, sawDig, und, c :: cs)

/-- Exponent part after the `e`/`p` marker: optional sign, then at least one
decimal digit. Returns (negative?, value, underscore seen, rest). -/
def scanExp (t : List Char) : Option (Bool × Nat × Bool × List Char) :=
  let pr := match t with
    | c :: u => if c = '+' then (false, u) else if c = '-' then (true, u) else (false, t)
    | [] => (false, t)
  match pr.2 with
  | c :: _ =>
    if isDigitChar c then
      let r := scanExpDigits 0 false false pr.2
      some (pr.1, r.1, r.2.2.1, r.2.2.2)
    else none
  | [] => none

/-- Model of `strconv.ParseFloat(s, 64)`; `none` on any syntax error. -/
def goParseFloat (s : List Char) : Option GoFloat :=
  if s = [] then none
  else
    let sp := match s with
      | c :: t => if c = '+' then (false, t) else if c = '-' then (true, t) else (false, s)
      | [] => (false, s)
    let neg := sp.1
    let body := sp.2
    if foldEqList body ['i', 'n', 'f'] ∨
        foldEqList body ['i', 'n', 'f', 'i', 'n', 'i', 't', 'y'] then
      some (GoFloat.inf neg)
    else if foldEqList s ['n', 'a', 'n'] then
      some GoFloat.nan
    else
      -- `readFloat`: detect a hexadecimal mantissa
      let hx := match body with
        | '0' :: c :: t => if lowerNat c.toNat = 120 then (true, t) else (false, body)
        | _ => (false, body)
      let hex := hx.1
      let base := if hex then 16 else 10
      let m := scanMantAux base 0 0 false false false hx.2
      let mant := m.1
      let frac := m.2.1
      let sawDig := m.2.2.2.1
      let und1 := m.2.2.2.2.1
      let rest := m.2.2.2.2.2
      if sawDig = false then none
      else
        let fin : Bool → Nat → Bool → Option GoFloat := fun negE e und2 =>
          if (und1 ∨ und2) ∧ underscoreOK s = false then none
          else
            let ex : ℤ := if negE then -(e : ℤ) else (e : ℤ)
            let q : ℚ :=
              if hex then (mant : ℚ) * 16 ^ (-(frac : ℤ)) * 2 ^ ex
              else (mant : ℚ) * 10 ^ (ex - (frac : ℤ))
            some (GoFloat.finite (if neg then -q else q))
        if hex then
          match rest with
          | c :: t =>
            if lowerNat c.toNat = 112 then
              match scanExp t with
              | some (negE, e, und2, erest) => if erest = [] then fin negE e und2 else none
              | none => none
            else none
          | [] => none
        else
          match rest with
          | [] => fin false 0 false
          | c :: t =>
            if lowerNat c.toNat = 101 then
              match scanExp t with
              | some (negE, e, und2, erest) => if erest = [] then fin negE e und2 else none
              | none => none
            else none

/-! ## `time.ParseDuration`

A duration literal is `[-+]?([0-9]*(\.[0-9]*)?[a-z]+)+` or `[-+]?0`;
the value is accumulated in nanoseconds with the overflow checks of the Go
implementation. Go computes the fractional contribution with `float64`
arithmetic; it is modelled here with exact rational arithmetic truncated
toward zero — the claims settled here depend only on whether parsing
succeeds and on the wrapper's fallback structure. -/

/-- Model of `time.leadingFraction`'s accumulation: digits after the decimal point,
with accumulation stopping (but scanning continuing) once the value would
overflow. Returns the fraction digits' value and the scale (10^digits kept). -/
def fracAux (x : Nat) (scale : ℚ) (ovf : Bool) : List Char → Nat × ℚ
  | [] => (x, scale)
  | c :: cs =>
    if ovf then fracAux x scale true cs
    else if (2 ^ 63 - 1) / 10 < x then fracAux x scale true cs
    else
      let y := 10 * x + (c.toNat - 48)
      if 2 ^ 63 < y then fracAux x scale true cs
      else fracAux y (scale * 10) false cs

/-- Go `time`'s `unitMap`: nanoseconds per unit; `µs` (U+00B5) and `μs` (U+03BC)
are micro-second spellings next to `us`. -/
def unitNs : List Char → Option Nat
  | ['n', 's'] => some 1
  | ['u', 's'] => some 1000
  | ['m', 's'] => some 1000000
  | ['s'] => some 1000000000
  | ['m'] => some 60000000000
  | ['h'] => some 3600000000000
  | [c, 's'] => if c.toNat = 181 ∨ c.toNat = 956 then some 1000 else none
  | _ => none

/-- A unit character is anything that is neither a digit nor `'.'`
(the unit scan of `time.ParseDuration` stops at the next number). -/
def isUnitChar (c : Char) : Bool := !(c == '.' || isDigitChar c)

/-- The optional fraction after the integer part: on `'.' :: t`, consume the
fraction digits via `fracAux` (`time.leadingFraction`). Returns the fraction
value, the scale, the unconsumed rest, and whether fraction digits were seen
(`post` in the Go code). -/
def fracSplit (r1 : List Char) : Nat × ℚ × List Char × Bool :=
  match r1 with
  | '.' :: t =>
    let fs := t.takeWhile isDigitChar
    let fsc := fracAux 0 1 false fs
    (fsc.1, fsc.2, t.dropWhile isDigitChar, !fs.isEmpty)
  | _ => ((0 : Nat), (1 : ℚ), r1, false)

theorem length_dropWhile_le (p : Char → Bool) (l : List Char) :
    (l.dropWhile p).length ≤ l.length := by
  conv_rhs => rw [← List.takeWhile_append_dropWhile p l]
  simp only [List.length_append]
  omega

theorem length_dropWhile_lt (p : Char → Bool) (l : List Char)
    (h : (l.takeWhile p).isEmpty = false) : (l.dropWhile p).length < l.length := by
  conv_rhs => rw [← List.takeWhile_append_dropWhile p l]
  simp only [List.length_append]
  have hh : 0 < (l.takeWhile p).length := by
    cases hl : l.takeWhile p with
    | nil => rw [hl] at h; simp at h
    | cons a t => simp [hl]
  omega

theorem fracSplit_length (r1 : List Char) : (fracSplit r1).2.2.1.length ≤ r1.length := by
  unfold fracSplit
  split
  · rename_i t
    show (t.dropWhile isDigitChar).length ≤ ('.' :: t).length
    have h2 := length_dropWhile_le isDigitChar t
    simp only [List.length_cons]
    omega
  · exact Nat.le_refl _

/-- One iteration of the `time.ParseDuration` loop: reads
`[0-9]*(\.[0-9]*)?[a-z]+`, returns the value in nanoseconds and the rest of
the input; `none` on a syntax error or overflow. -/
def durStep (s : List Char) : Option (Nat × List Char) :=
  match s with
  | [] => none
  | c :: _ =>
    -- the next character must be [0-9.]
    if !(c == '.' || isDigitChar c) then none
    else
      let ds := s.takeWhile isDigitChar
      let r1 := s.dropWhile isDigitChar
      let v := digitsToNat 10 ds
      -- leadingInt overflows above 1<<63
      if 2 ^ 63 < v then none
      else
        let fr := fracSplit r1
        let f := fr.1
        let scale := fr.2.1
        let r2 := fr.2.2.1
        let post := fr.2.2.2
        -- no digits at all (e.g. ".s" or "-.s")
        if ds.isEmpty = true ∧ post = false then none
        else if (r2.takeWhile isUnitChar).isEmpty then none
        else
          match unitNs (r2.takeWhile isUnitChar) with
          | none => none
          | some unit =>
            if 2 ^ 63 / unit < v then none
            else
              let v2 := v * unit
              if 0 < f then
                let v3 := v2 + (Int.floor ((f : ℚ) * ((unit : ℚ) / scale))).toNat
                if 2 ^ 63 < v3 then none
                else some (v3, r2.dropWhile isUnitChar)
              else some (v2, r2.dropWhile isUnitChar)

/-- Every successful `durStep` result has the tail
`(fracSplit (s.dropWhile isDigitChar)).2.2.1.dropWhile isUnitChar`, with a
nonempty unit consumed just before it. -/
theorem durStep_shape (s : List Char) :
    durStep s = none ∨
      ∃ w, durStep s =
          some (w, (fracSplit (s.dropWhile isDigitChar)).2.2.1.dropWhile isUnitChar) ∧
        ((fracSplit (s.dropWhile isDigitChar)).2.2.1.takeWhile isUnitChar).isEmpty = false := by
  cases s with
  | nil => exact Or.inl rfl
  | cons c s' =>
    unfold durStep
    simp only []
    split
    · exact Or.inl rfl
    · split
      · exact Or.inl rfl
      · split
        · exact Or.inl rfl
        · split
          · exact Or.inl rfl
          · rename_i hus
            split
            · exact Or.inl rfl
            · split
              · exact Or.inl rfl
              · split
                · split
                  · exact Or.inl rfl
                  · exact Or.inr ⟨_, rfl, by simpa using hus⟩
                · exact Or.inr ⟨_, rfl, by simpa using hus⟩

/-- A successful `durStep` consumes at least the (nonempty) unit. -/
theorem durStep_length {s : List Char} {v : Nat} {rest : List Char}
    (h : durStep s = some (v, rest)) : rest.length < s.length := by
  rcases durStep_shape s with hn | ⟨w, hw, hne⟩
  · rw [hn] at h; cases h
  · have h2 : (fracSplit (s.dropWhile isDigitChar)).2.2.1.dropWhile isUnitChar = rest :=
      congrArg Prod.snd (Option.some.inj (hw.symm.trans h))
    have h1 := length_dropWhile_lt isUnitChar _ hne
    have h3 := fracSplit_length (s.dropWhile isDigitChar)
    have h4 := length_dropWhile_le isDigitChar s
    rw [← h2]
    omega


/-- The main loop of `time.ParseDuration`: repeat `durStep` while input
remains, accumulating into `d` with the `d > 1<<63` overflow check. -/
def durLoop (s : List Char) (d : Nat) : Option Nat :=
  if s = [] then some d
  else
    match h2 : durStep s with
    | none => none
    | some (v, rest) =>
      if 2 ^ 63 < d + v then none
      else durLoop rest (d + v)
termination_by s.length
decreasing_by exact durStep_length h2

/-- Model of `time.ParseDuration`: optional sign, the `"0"` shortcut, then the loop;
the result is in nanoseconds, negated for a leading `'-'`, and must fit in
`int64`. `none` on any syntax error or overflow. -/
def goParseDuration (s : List Char) : Option ℤ :=
  let sp := match s with
    | c :: t => if c = '-' ∨ c = '+' then (c == '-', t) else (false, s)
    | [] => (false, s)
  let neg := sp.1
  let s1 := sp.2
  if s1 = ['0'] then some 0
  else if s1 = [] then none
  else
    match durLoop s1 0 with
    | none => none
    | some d =>
      if neg then some (-(d : ℤ))
      else if 2 ^ 63 - 1 < d then none
      else some (d : ℤ)

/-! ## `flag.go`: environment variable names and per-type resolvers -/

/-- ASCII upper-casing of one character. `envNameForFlagName` uses Go's
`strings.ToUpper`; flag names are ASCII, where Unicode and ASCII upper-casing
agree, so the model is restricted to ASCII. -/
def upChar (c : Char) : Char :=
  if 97 ≤ c.toNat ∧ c.toNat ≤ 122 then Char.ofNat (c.toNat - 32) else c

/-- Model of `strings.Replace(s, "-", "_", -1)`: with single-character pattern and
replacement, replacing every non-overlapping occurrence is exactly a
character map. -/
def replaceDashes (s : String) : String :=
  String.mk (s.data.map fun c => if c = '-' then '_' else c)

/-- Model of `strings.ToUpper`, restricted to ASCII (see `upChar`). -/
def upperAscii (s : String) : String :=
  String.mk (s.data.map upChar)

/-- Source `envNameForFlagName` (flag.go:37-43): prepend the prefix with an
underscore when the prefix is nonempty, then replace hyphens and upper-case.
The package-level `envPrefix` variable is the explicit first argument. -/
def envNameForFlagName (pfx name : String) : String :=
  let envName := if 0 < pfx.length then pfx ++ "_" ++ name else name
  upperAscii (replaceDashes envName)

/-- The process environment, as consulted by `os.LookupEnv`:
`none` models "variable unset". -/
def GoEnv : Type := String → Option String

/-- Source `boolFromEnv` (flag.go:47-53): unset means the declared default;
otherwise `val == "true"`. -/
def boolFromEnv (env : GoEnv) (pfx name : String) (value : Bool) : Bool :=
  match env (envNameForFlagName pfx name) with
  | none => value
  | some val => val == "true"

/-- Source `durationFromEnv` (flag.go:68-78): unset or unparsable means the declared
default; durations are in nanoseconds (`int64`, modelled as `ℤ`). -/
def durationFromEnv (env : GoEnv) (pfx name : String) (value : ℤ) : ℤ :=
  match env (envNameForFlagName pfx name) with
  | none => value
  | some val =>
    match goParseDuration val.data with
    | none => value
    | some dur => dur

/-- Source `float64FromEnv` (flag.go:95-105): unset or unparsable means the declared
default. -/
def float64FromEnv (env : GoEnv) (pfx name : String) (value : GoFloat) : GoFloat :=
  match env (envNameForFlagName pfx name) with
  | none => value
  | some val =>
    match goParseFloat val.data with
    | none => value
    | some fl => fl

/-- Source `int64FromEnv` (flag.go:127-137): unset or unparsable means the declared
default. -/
def int64FromEnv (env : GoEnv) (pfx name : String) (value : ℤ) : ℤ :=
  match env (envNameForFlagName pfx name) with
  | none => value
  | some val =>
    match goParseInt val.data with
    | none => value
    | some i => i

/-- Source `stringFromEnv` (flag.go:219-225): unset means the declared default;
otherwise the variable's value verbatim. -/
def stringFromEnv (env : GoEnv) (pfx name : String) (value : String) : String :=
  match env (envNameForFlagName pfx name) with
  | none => value
  | some val => val

/-- Source `uint64FromEnv` (flag.go:240-250): unset or unparsable means the declared
default (`uint64` modelled as `ℕ`; `goParseUint` enforces the range). -/
def uint64FromEnv (env : GoEnv) (pfx name : String) (value : ℕ) : ℕ :=
  match env (envNameForFlagName pfx name) with
  | none => value
  | some val =>
    match goParseUint val.data with
    | none => value
    | some i => i

/-- The effective default of `Int`/`IntVar` (flag.go:141-143, 159-161):
`int(int64FromEnv(name, int64(value)))`. Go's `int` is 64-bit on the
supported platforms, so both conversions are the identity. -/
def intEffectiveDefault (env : GoEnv) (pfx name : String) (value : ℤ) : ℤ :=
  int64FromEnv env pfx name value

/-- The effective default of `Uint`/`UintVar` (flag.go:254-256, 272-274):
`uint(uint64FromEnv(name, uint64(value)))`; both conversions are the
identity on 64-bit platforms. -/
def uintEffectiveDefault (env : GoEnv) (pfx name : String) (value : ℕ) : ℕ :=
  uint64FromEnv env pfx name value

/-! ## `list.go` -/

/-- Go `strings.Split` with a single-character separator: one piece per
separator occurrence, never empty (splitting the empty string yields one
empty piece). -/
def splitChar (sep : Char) : List Char → List (List Char)
  | [] => [[]]
  | c :: cs =>
    if c = sep then [] :: splitChar sep cs
    else
      match splitChar sep cs with
      | [] => [[c]]
      | h :: t => (c :: h) :: t

/-- Source `ListFromString` (list.go:6-8): `strings.Split(s, ",")`. -/
def ListFromString (s : String) : List String :=
  (splitChar ',' s.data).map String.mk

/-! ## Verb extraction

The file defining `GetVerbs` is not part of the sources under review (only
its tests are), so it is modelled from the specification. -/

/-- A token begins with the flag marker `'-'` (first character is a dash). -/
def startsWithDash (s : String) : Bool :=
  match s.data with
  | [] => false
  | c :: _ => c == '-'

/-- Modelled from the spec: the repository's `GetVerbs` (its defining source
file is missing; only its tests are available). Per §4.2, it scans the raw
argument tokens from the start and returns the maximal prefix of tokens that
do not begin with the flag marker `'-'`, in original order. -/
def GetVerbs (args : List String) : List String :=
  args.takeWhile (fun t => !startsWithDash t)

/-- Modelled from the spec: the process-wide state `GetVerbs` may observe —
the raw argument vector and the parsed/unparsed flag-set state (§3). -/
structure FlagProcState where
  rawArgs : List String
  parsed : Bool
deriving DecidableEq

/-- Modelled from the spec: `GetVerbs` as a state-passing operation, so that
"mutates no state" is expressible. §4.2: "No mutation; pure query over
already-established flag-set state and the raw argument vector." -/
def GetVerbsSt (σ : FlagProcState) : List String × FlagProcState :=
  (GetVerbs σ.rawArgs, σ)

/-! ## The underlying `flag` package's registration, and `UintVar`

`f.UintVar(p, ...)` binds the flag to the caller's variable and stores the
default there; `f.Uint(name, ...)` allocates a fresh variable, binds the flag
to it and returns its address. Storage cells are modelled as a heap indexed
by `Nat` addresses. `flag.Set`/parsing writes the parsed value through the
flag's binding. -/

structure FlagRegState where
  nextAddr : Nat
  binds : List (String × Nat)
  heap : Nat → Nat

/-- The standard library's `flag.UintVar`: bind `name` to the caller-supplied
address `p` and store the default there. -/
def fUintVar (p : Nat) (name : String) (value : Nat) (st : FlagRegState) : FlagRegState :=
  { st with binds := st.binds ++ [(name, p)],
            heap := fun a => if a = p then value else st.heap a }

/-- The standard library's `flag.Uint`: allocate a fresh cell, bind `name`
to it, store the default there, return its address. -/
def fUint (name : String) (value : Nat) (st : FlagRegState) : Nat × FlagRegState :=
  (st.nextAddr,
    { nextAddr := st.nextAddr + 1,
      binds := st.binds ++ [(name, st.nextAddr)],
      heap := fun a => if a = st.nextAddr then value else st.heap a })

/-- Source `UintVar` (flag.go:272-274) as written in the source: it calls
`f.Uint(name, uint(uint64FromEnv(name, uint64(value))), usage)` — not
`f.UintVar` — so the caller's pointer `p` is never used. -/
def UintVar (env : GoEnv) (pfx : String) (p : Nat) (name : String) (value : Nat)
    (st : FlagRegState) : FlagRegState :=
  (fUint name (uintEffectiveDefault env pfx name value) st).2

/-- Source `Uint64Var` (flag.go:266-268), a sibling "Var" constructor that does pass
`p` through to `f.Uint64Var`. -/
def Uint64Var (env : GoEnv) (pfx : String) (p : Nat) (name : String) (value : Nat)
    (st : FlagRegState) : FlagRegState :=
  fUintVar p name (uint64FromEnv env pfx name value) st

/-- Parsing a command-line value for flag `name`: writes through the flag's
binding (`flag.Set` / `(*FlagSet).Parse`). -/
def parseSet (name : String) (v : Nat) (st : FlagRegState) : FlagRegState :=
  match st.binds.find? (fun b => b.1 == name) with
  | none => st
  | some b => { st with heap := fun a => if a = b.2 then v else st.heap a }

/-! ## `SetEnvPrefix` -/

/-- Source `SetEnvPrefix` (flag.go:32-34): `envPrefix = prefix`, with the
package-level variable passed as explicit state. The call never fails and
ignores the previous value. -/
def setEnvPrefixCall (p : String) (_cur : String) : String := p

/-- A whole sequence of `SetEnvPrefix` calls, applied to an initial
`envPrefix` state. -/
def applyPrefixCalls (ps : List String) (s0 : String) : String :=
  ps.foldl (fun cur p => setEnvPrefixCall p cur) s0

/-- The spec's §3 description of environment-variable name derivation:
"uppercase of (prefix + \"_\" + flag-name) with hyphens replaced by
underscores; if no prefix, just the uppercased, hyphen-replaced flag name". -/
def envNameSpec (pfx name : String) : String :=
  upperAscii (replaceDashes (if pfx = "" then name else pfx ++ "_" ++ name))

/-!
## Theorems
-/

/-- Helper: a nonempty string has positive length. -/
theorem length_pos_of_ne_empty (s : String) (h : s ≠ "") : 0 < s.length := by
  obtain ⟨l⟩ := s
  cases l with
  | nil => exact absurd rfl h
  | cons a t => simp [String.length]

/-- C5: the environment variable name is the uppercase of
(prefix + "_" + flag-name) with hyphens replaced by underscores; with an
empty prefix it is just the uppercased, hyphen-replaced flag name; on
"max-retries" with prefix "APP" it is "APP_MAX_RETRIES", with empty prefix
"MAX_RETRIES"; and the derivation agrees with the spec's description for
every prefix and name. -/
theorem envNameForFlagName_spec :
    envNameForFlagName "APP" "max-retries" = "APP_MAX_RETRIES" ∧
    envNameForFlagName "" "max-retries" = "MAX_RETRIES" ∧
    ∀ pfx name : String, envNameForFlagName pfx name = envNameSpec pfx name := by
  refine ⟨by decide, by decide, ?_⟩
  intro pfx name
  unfold envNameForFlagName envNameSpec
  by_cases h : pfx = ""
  · subst h
    simp
  · have hl := length_pos_of_ne_empty pfx h
    simp [h, hl]

/-- C9: the verb extractor is a pure query: it leaves the state unchanged,
and a second call returns the same sequence as the first. -/
theorem getVerbs_pure (σ : FlagProcState) :
    (GetVerbsSt σ).2 = σ ∧ (GetVerbsSt ((GetVerbsSt σ).2)).1 = (GetVerbsSt σ).1 :=
  ⟨rfl, rfl⟩

/-- C10: `SetEnvPrefix` unconditionally overwrites the prefix: after any
sequence of calls ending in `p`, the state is exactly `p` — independent of
earlier calls and of the initial state — and a flag registered afterwards
resolves its environment variable from `p`. -/
theorem setEnvPrefix_overwrites (ps : List String) (s0 p : String) (env : GoEnv)
    (name : String) (d : Bool) :
    applyPrefixCalls (ps ++ [p]) s0 = p ∧
    boolFromEnv env (applyPrefixCalls (ps ++ [p]) s0) name d = boolFromEnv env p name d := by
  have h : applyPrefixCalls (ps ++ [p]) s0 = p := by
    simp [applyPrefixCalls, setEnvPrefixCall, List.foldl_append]
  exact ⟨h, by rw [h]⟩

/-- Helper: `splitChar` never returns an empty list of pieces. -/
theorem splitChar_length_pos (sep : Char) (l : List Char) :
    0 < (splitChar sep l).length := by
  induction l with
  | nil => simp [splitChar]
  | cons c cs ih =>
    by_cases h : c = sep
    · simp [splitChar, h]
    · simp only [splitChar, h, if_false]
      cases hm : splitChar sep cs with
      | nil => simp
      | cons a t => simp

/-- C7: `ListFromString` splits on commas with no trimming and no escaping,
never fails, and never returns a zero-element sequence:
`"a,b,c"` gives `["a","b","c"]`, `""` gives `[""]`, `"a"` gives `["a"]`,
and every result has positive length. -/
theorem listFromString_spec :
    ListFromString "a,b,c" = ["a", "b", "c"] ∧
    ListFromString "" = [""] ∧
    ListFromString "a" = ["a"] ∧
    ∀ s : String, 0 < (ListFromString s).length := by
  refine ⟨by decide, by decide, by decide, ?_⟩
  intro s
  simpa [ListFromString] using splitChar_length_pos ',' s.data

/-- Helper: `takeWhile` keeps every prefix all of whose elements satisfy the
predicate (maximality of the extracted prefix). -/
theorem prefix_takeWhile_of_all {α : Type} (p : α → Bool) :
    ∀ (w l : List α), w <+: l → (∀ a ∈ w, p a = true) → w <+: l.takeWhile p := by
  intro w
  induction w with
  | nil => intro l _ _; exact List.nil_prefix
  | cons a t ih =>
    intro l hpre hall
    obtain ⟨r, hr⟩ := hpre
    subst hr
    rw [List.cons_append, List.takeWhile_cons_of_pos (hall a (by simp))]
    exact List.cons_prefix_cons.mpr ⟨rfl, ih (t ++ r) ⟨r, rfl⟩ fun x hx => hall x (by simp [hx])⟩

/-- C6: verb extraction returns `["single-verb"]`, `[]` and
`["two-verb", "two-second-verb"]` on the three specified argument vectors,
and in general the maximal prefix of tokens not beginning with `'-'`, in
original order. -/
theorem getVerbs_examples_and_maximal :
    GetVerbs ["single-verb", "-test", "1"] = ["single-verb"] ∧
    GetVerbs ["-test", "1"] = [] ∧
    GetVerbs ["two-verb", "two-second-verb", "-test", "1"] =
      ["two-verb", "two-second-verb"] ∧
    ∀ args : List String,
      GetVerbs args <+: args ∧
      (∀ s ∈ GetVerbs args, startsWithDash s = false) ∧
      ∀ w : List String, w <+: args → (∀ s ∈ w, startsWithDash s = false) →
        w <+: GetVerbs args := by
  refine ⟨by decide, by decide, by decide, ?_⟩
  intro args
  refine ⟨List.takeWhile_prefix _, ?_, ?_⟩
  · intro s hs
    have := List.mem_takeWhile_imp hs
    simpa using this
  · intro w hw hall
    exact prefix_takeWhile_of_all _ w args hw fun a ha => by simpa using hall a ha

/-- Witness for C6: the maximality clause applied at a concrete vector. -/
theorem getVerbs_examples_and_maximal_witness :
    (["ok"] : List String) <+: GetVerbs ["ok", "-v"] :=
  (getVerbs_examples_and_maximal.2.2.2 ["ok", "-v"]).2.2 ["ok"] ⟨["-v"], rfl⟩ (by decide)

/-- C2: when the environment variable is set to `v`, the boolean effective
default is `true` exactly when `v` is the literal string `"true"`, and it
does not depend on the declared default. -/
theorem boolFromEnv_set (env : GoEnv) (pfx name v : String)
    (h : env (envNameForFlagName pfx name) = some v) (d : Bool) :
    (boolFromEnv env pfx name d = true ↔ v = "true") ∧
    boolFromEnv env pfx name d = boolFromEnv env pfx name (!d) := by
  unfold boolFromEnv
  rw [h]
  exact ⟨by simp, rfl⟩

/-- Witness for C2: a variable set to `"false"` gives effective default
`false` even with declared default `true`, and one set to `"true"` gives
`true` even with declared default `false`. -/
theorem boolFromEnv_set_witness :
    boolFromEnv (fun k => if k = "X" then some "false" else none) "" "x" true = false ∧
    boolFromEnv (fun k => if k = "Y" then some "true" else none) "" "y" false = true := by
  constructor
  · have h := (boolFromEnv_set (fun k => if k = "X" then some "false" else none) "" "x"
      "false" (by decide) true).1
    cases hb : boolFromEnv (fun k => if k = "X" then some "false" else none) "" "x" true
    · rfl
    · exact absurd (h.mp hb) (by decide)
  · exact (boolFromEnv_set (fun k => if k = "Y" then some "true" else none) "" "y"
      "true" (by decide) false).1.mpr rfl

/-- C4: if the environment variable for the flag is unset, every per-type
resolver returns the declared default unchanged (bool, duration, float64,
int, int64, string, uint, uint64). -/
theorem fromEnv_unset_identity (env : GoEnv) (pfx name : String)
    (h : env (envNameForFlagName pfx name) = none) :
    (∀ d : Bool, boolFromEnv env pfx name d = d) ∧
    (∀ d : ℤ, durationFromEnv env pfx name d = d) ∧
    (∀ d : GoFloat, float64FromEnv env pfx name d = d) ∧
    (∀ d : ℤ, int64FromEnv env pfx name d = d) ∧
    (∀ d : ℤ, intEffectiveDefault env pfx name d = d) ∧
    (∀ d : String, stringFromEnv env pfx name d = d) ∧
    (∀ d : ℕ, uint64FromEnv env pfx name d = d) ∧
    (∀ d : ℕ, uintEffectiveDefault env pfx name d = d) := by
  refine ⟨?_, ?_, ?_, ?_, ?_, ?_, ?_, ?_⟩ <;>
    intro d <;>
    simp only [boolFromEnv, durationFromEnv, float64FromEnv, int64FromEnv,
      intEffectiveDefault, stringFromEnv, uint64FromEnv, uintEffectiveDefault, h]

/-- Witness for C4: the empty environment leaves concrete defaults of every
type unchanged. -/
theorem fromEnv_unset_identity_witness :
    boolFromEnv (fun _ => none) "" "x" true = true ∧
    durationFromEnv (fun _ => none) "" "x" 5 = 5 ∧
    float64FromEnv (fun _ => none) "" "x" (GoFloat.finite 2) = GoFloat.finite 2 ∧
    int64FromEnv (fun _ => none) "" "x" (-3) = -3 ∧
    intEffectiveDefault (fun _ => none) "" "x" 11 = 11 ∧
    stringFromEnv (fun _ => none) "" "x" "dflt" = "dflt" ∧
    uint64FromEnv (fun _ => none) "" "x" 9 = 9 ∧
    uintEffectiveDefault (fun _ => none) "" "x" 4 = 4 := by
  have h := fromEnv_unset_identity (fun _ => none) "" "x" rfl
  exact ⟨h.1 true, h.2.1 5, h.2.2.1 _, h.2.2.2.1 _, h.2.2.2.2.1 11, h.2.2.2.2.2.1 "dflt",
    h.2.2.2.2.2.2.1 9, h.2.2.2.2.2.2.2 4⟩

/-- C3: for typed non-string flags (int, int64, uint, uint64, float64,
duration), an environment value that fails to parse for the type makes the
resolver return the declared default, with no error signalled (the resolvers
are total functions). -/
theorem fromEnv_malformed_fallback (env : GoEnv) (pfx name v : String)
    (h : env (envNameForFlagName pfx name) = some v) :
    (goParseInt v.data = none →
      ∀ d : ℤ, int64FromEnv env pfx name d = d ∧ intEffectiveDefault env pfx name d = d) ∧
    (goParseUint v.data = none →
      ∀ d : ℕ, uint64FromEnv env pfx name d = d ∧ uintEffectiveDefault env pfx name d = d) ∧
    (goParseFloat v.data = none → ∀ d : GoFloat, float64FromEnv env pfx name d = d) ∧
    (goParseDuration v.data = none → ∀ d : ℤ, durationFromEnv env pfx name d = d) := by
  refine ⟨?_, ?_, ?_, ?_⟩ <;> intro hp d <;>
    simp only [int64FromEnv, intEffectiveDefault, uint64FromEnv, uintEffectiveDefault,
      float64FromEnv, durationFromEnv, h, hp] <;> exact ⟨trivial, trivial⟩

/-- Helper: `"bogus"` is not a duration literal (its first segment starts
with a letter, so the first `durStep` fails). -/
theorem goParseDuration_bogus_none : goParseDuration ("bogus".data) = none := by
  have h1 : durStep ("bogus".data) = none := by decide
  have h2 : durLoop ("bogus".data) 0 = none := by
    unfold durLoop
    rw [if_neg (by decide)]
    split
    · rfl
    · rename_i v rest heq
      rw [h1] at heq
      cases heq
  have hd : ("bogus".data) = ['b', 'o', 'g', 'u', 's'] := rfl
  rw [hd] at h2
  unfold goParseDuration
  rw [hd]
  simp only []
  simp [h2]

/-- Witness for C3: with the variable set to `"bogus"`, every typed
non-string resolver keeps its declared default. -/
theorem fromEnv_malformed_fallback_witness :
    int64FromEnv (fun k => if k = "X" then some "bogus" else none) "" "x" 42 = 42 ∧
    intEffectiveDefault (fun k => if k = "X" then some "bogus" else none) "" "x" 42 = 42 ∧
    uint64FromEnv (fun k => if k = "X" then some "bogus" else none) "" "x" 7 = 7 ∧
    uintEffectiveDefault (fun k => if k = "X" then some "bogus" else none) "" "x" 7 = 7 ∧
    float64FromEnv (fun k => if k = "X" then some "bogus" else none) "" "x"
      (GoFloat.finite 1) = GoFloat.finite 1 ∧
    durationFromEnv (fun k => if k = "X" then some "bogus" else none) "" "x" 3 = 3 := by
  have H := fromEnv_malformed_fallback (fun k => if k = "X" then some "bogus" else none)
    "" "x" "bogus" (by decide)
  exact ⟨(H.1 (by decide) 42).1, (H.1 (by decide) 42).2, (H.2.1 (by decide) 7).1,
    (H.2.1 (by decide) 7).2, H.2.2.1 (by decide) _, H.2.2.2 goParseDuration_bogus_none 3⟩

/-- Helper: a valid digit has a `digitVal` below the base. -/
theorem isBaseDigit_some {b : Nat} {c : Char} (h : isBaseDigit b c = true) :
    ∃ d, digitVal c = some d ∧ d < b := by
  unfold isBaseDigit at h
  cases hd : digitVal c with
  | none => rw [hd] at h; cases h
  | some d => rw [hd] at h; exact ⟨d, rfl, by simpa using h⟩

/-- Helper: the two branches of `digitVal`. -/
theorem digitVal_cases {c : Char} {d : Nat} (hd : digitVal c = some d) :
    (48 ≤ c.toNat ∧ c.toNat ≤ 57 ∧ d = c.toNat - 48) ∨
    (97 ≤ lowerNat c.toNat ∧ lowerNat c.toNat ≤ 122 ∧ d = lowerNat c.toNat - 87 ∧ 10 ≤ d) := by
  unfold digitVal at hd
  split at hd
  · rename_i hcond
    exact Or.inl ⟨hcond.1, hcond.2, (Option.some.inj hd).symm⟩
  · split at hd
    · rename_i hcond
      have hdv := (Option.some.inj hd).symm
      exact Or.inr ⟨hcond.1, hcond.2, hdv, by omega⟩
    · cases hd

/-- Helper: decimal digits have code points 48–57. -/
theorem isBaseDigit_ten_range {c : Char} (h : isBaseDigit 10 c = true) :
    48 ≤ c.toNat ∧ c.toNat ≤ 57 := by
  obtain ⟨d, hd, hdb⟩ := isBaseDigit_some h
  rcases digitVal_cases hd with ⟨h1, h2, h3⟩ | ⟨h1, h2, h3, h4⟩
  · exact ⟨h1, h2⟩
  · omega

/-- Helper: octal digits have code points 48–55. -/
theorem isBaseDigit_eight_range {c : Char} (h : isBaseDigit 8 c = true) :
    48 ≤ c.toNat ∧ c.toNat ≤ 55 := by
  obtain ⟨d, hd, hdb⟩ := isBaseDigit_some h
  rcases digitVal_cases hd with ⟨h1, h2, h3⟩ | ⟨h1, h2, h3, h4⟩
  · omega
  · omega

/-- Helper: `lowerNat` fixes decimal digit code points (bit 5 is already
set in 48–57). -/
theorem lowerNat_digit_self {n : Nat} (h1 : 48 ≤ n) (h2 : n ≤ 57) : lowerNat n = n := by
  interval_cases n <;> decide

/-- Helper: digits are not sign characters. -/
theorem isBaseDigit_ne_sign {b : Nat} {c : Char} (h : isBaseDigit b c = true) :
    ¬(c = '+' ∨ c = '-') := by
  rintro (rfl | rfl)
  · unfold isBaseDigit at h
    rw [(by decide : digitVal '+' = none)] at h
    cases h
  · unfold isBaseDigit at h
    rw [(by decide : digitVal '-' = none)] at h
    cases h

/-- Helper: the `ParseUint` digit loop succeeds on a string of valid digits,
computing the base-`b` value (no underscores seen). -/
theorem scanDigitsAux_all (b : Nat) :
    ∀ (ds : List Char) (acc : Nat), (∀ c ∈ ds, isBaseDigit b c = true) →
      scanDigitsAux b acc false ds =
        some (ds.foldl (fun a c => b * a + (digitVal c).getD 0) acc, false) := by
  intro ds
  induction ds with
  | nil => intro acc _; rfl
  | cons c cs ih =>
    intro acc hall
    have hc := hall c (by simp)
    obtain ⟨d, hd, hdb⟩ := isBaseDigit_some hc
    have hub : c ≠ '_' := by
      intro he
      rw [he, (by decide : digitVal '_' = none)] at hd
      cases hd
    unfold scanDigitsAux
    rw [if_neg hub, hd]
    simp only []
    rw [if_neg (by omega)]
    rw [ih (b * acc + d) (fun x hx => hall x (by simp [hx]))]
    simp [hd]

/-- Helper: base detection on a literal not starting with `'0'` is decimal. -/
theorem baseAndDigits_decimal {c : Char} {cs : List Char} (h : c ≠ '0') :
    baseAndDigits (c :: cs) = (10, c :: cs) := by
  unfold baseAndDigits
  simp only []
  rw [if_neg h]

/-- Helper: base detection on `0x` followed by at least one character is
hexadecimal. -/
theorem baseAndDigits_hex {t : List Char} (hne : t ≠ []) :
    baseAndDigits ('0' :: 'x' :: t) = (16, t) := by
  unfold baseAndDigits
  simp only [if_true]
  rw [if_neg (fun hh => absurd hh.2 (by decide)),
    if_neg (fun hh => absurd hh.2 (by decide)),
    if_pos ⟨hne, by decide⟩]

/-- Helper: base detection on `'0'` followed by an octal digit is octal. -/
theorem baseAndDigits_octal {c : Char} {cs : List Char} (hd8 : isBaseDigit 8 c = true) :
    baseAndDigits ('0' :: c :: cs) = (8, c :: cs) := by
  have h1 := isBaseDigit_eight_range hd8
  have h2 := lowerNat_digit_self (n := c.toNat) h1.1 (by omega)
  unfold baseAndDigits
  simp only [if_true]
  rw [if_neg (fun hh => by have h3 := hh.2; rw [h2] at h3; omega),
    if_neg (fun hh => by have h3 := hh.2; rw [h2] at h3; omega),
    if_neg (fun hh => by have h3 := hh.2; rw [h2] at h3; omega)]

/-- Helper: `goParseUint` on an input whose detected digits are all valid and
whose value is in range returns the digits' value. -/
theorem goParseUint_of_baseAndDigits {s : List Char} {b : Nat} {ds : List Char}
    (hs : s ≠ []) (hbd : baseAndDigits s = (b, ds))
    (hall : ∀ c ∈ ds, isBaseDigit b c = true)
    (hr : digitsToNat b ds ≤ 2 ^ 64 - 1) :
    goParseUint s = some (digitsToNat b ds) := by
  unfold goParseUint
  rw [if_neg hs]
  simp only [hbd]
  rw [scanDigitsAux_all b ds 0 hall]
  simp only []
  rw [if_neg (by simp)]
  rw [if_neg (by unfold digitsToNat at hr; omega)]
  rfl

/-- Helper: `goParseInt` on an unsigned literal accepted by `goParseUint`
with an `int64`-range value returns that value. -/
theorem goParseInt_nonneg {s : List Char} {v : Nat} (hne : s ≠ [])
    (hsign : ∀ c, s.head? = some c → ¬(c = '+' ∨ c = '-'))
    (hu : goParseUint s = some v) (hv : v ≤ 2 ^ 63 - 1) :
    goParseInt s = some (v : ℤ) := by
  cases s with
  | nil => exact absurd rfl hne
  | cons c rest =>
    have hs := hsign c rfl
    unfold goParseInt
    simp only []
    rw [if_neg hs, hu]
    simp only []
    rw [if_neg (fun h => hs (Or.inr h)), if_neg (by omega)]

/-- Helper: unfold `uint64FromEnv` on a set variable with a successful parse. -/
theorem uint64FromEnv_of_parse {env : GoEnv} {pfx name : String} {val : String} {v : ℕ}
    (dflt : ℕ) (h : env (envNameForFlagName pfx name) = some val)
    (hp : goParseUint val.data = some v) :
    uint64FromEnv env pfx name dflt = v := by
  unfold uint64FromEnv
  rw [h]
  simp only []
  rw [hp]

/-- Helper: unfold `int64FromEnv` on a set variable with a successful parse. -/
theorem int64FromEnv_of_parse {env : GoEnv} {pfx name : String} {val : String} {v : ℤ}
    (dflt : ℤ) (h : env (envNameForFlagName pfx name) = some val)
    (hp : goParseInt val.data = some v) :
    int64FromEnv env pfx name dflt = v := by
  unfold int64FromEnv
  rw [h]
  simp only []
  rw [hp]

/-- C8: integer-typed environment values are parsed as base-prefixed integer
literals: well-formed decimal, `0x`-prefixed hexadecimal, and `0`-prefixed
octal values in range all yield the parsed number as the effective default,
for the unsigned (`uint`, `uint64`) and signed (`int`, `int64`) resolvers. -/
theorem intFromEnv_base_literals (env : GoEnv) (pfx name : String) :
    (∀ (ds : List Char) (dflt : ℕ),
      env (envNameForFlagName pfx name) = some (String.mk ds) →
      ds ≠ [] → ds.head? ≠ some '0' → (∀ c ∈ ds, isBaseDigit 10 c = true) →
      digitsToNat 10 ds ≤ 2 ^ 64 - 1 →
      uint64FromEnv env pfx name dflt = digitsToNat 10 ds) ∧
    (∀ (t : List Char) (dflt : ℕ),
      env (envNameForFlagName pfx name) = some (String.mk ('0' :: 'x' :: t)) →
      t ≠ [] → (∀ c ∈ t, isBaseDigit 16 c = true) → digitsToNat 16 t ≤ 2 ^ 64 - 1 →
      uint64FromEnv env pfx name dflt = digitsToNat 16 t) ∧
    (∀ (t : List Char) (dflt : ℕ),
      env (envNameForFlagName pfx name) = some (String.mk ('0' :: t)) →
      t ≠ [] → (∀ c ∈ t, isBaseDigit 8 c = true) → digitsToNat 8 t ≤ 2 ^ 64 - 1 →
      uint64FromEnv env pfx name dflt = digitsToNat 8 t) ∧
    (∀ (ds : List Char) (dflt : ℤ),
      env (envNameForFlagName pfx name) = some (String.mk ds) →
      ds ≠ [] → ds.head? ≠ some '0' → (∀ c ∈ ds, isBaseDigit 10 c = true) →
      digitsToNat 10 ds ≤ 2 ^ 63 - 1 →
      int64FromEnv env pfx name dflt = (digitsToNat 10 ds : ℤ)) ∧
    (∀ (t : List Char) (dflt : ℤ),
      env (envNameForFlagName pfx name) = some (String.mk ('0' :: 'x' :: t)) →
      t ≠ [] → (∀ c ∈ t, isBaseDigit 16 c = true) → digitsToNat 16 t ≤ 2 ^ 63 - 1 →
      int64FromEnv env pfx name dflt = (digitsToNat 16 t : ℤ)) ∧
    (∀ (t : List Char) (dflt : ℤ),
      env (envNameForFlagName pfx name) = some (String.mk ('0' :: t)) →
      t ≠ [] → (∀ c ∈ t, isBaseDigit 8 c = true) → digitsToNat 8 t ≤ 2 ^ 63 - 1 →
      int64FromEnv env pfx name dflt = (digitsToNat 8 t : ℤ)) := by
  refine ⟨?_, ?_, ?_, ?_, ?_, ?_⟩
  · intro ds dflt h hne h0 hall hr
    obtain ⟨c, cs, rfl⟩ : ∃ c cs, ds = c :: cs := by
      cases ds with
      | nil => exact absurd rfl hne
      | cons c cs => exact ⟨c, cs, rfl⟩
    have hc0 : c ≠ '0' := fun hc => h0 (by simp [hc])
    exact uint64FromEnv_of_parse dflt h
      (goParseUint_of_baseAndDigits (by simp) (baseAndDigits_decimal hc0) hall hr)
  · intro t dflt h hne hall hr
    exact uint64FromEnv_of_parse dflt h
      (goParseUint_of_baseAndDigits (by simp) (baseAndDigits_hex hne) hall hr)
  · intro t dflt h hne hall hr
    obtain ⟨c, cs, rfl⟩ : ∃ c cs, t = c :: cs := by
      cases t with
      | nil => exact absurd rfl hne
      | cons c cs => exact ⟨c, cs, rfl⟩
    exact uint64FromEnv_of_parse dflt h
      (goParseUint_of_baseAndDigits (by simp)
        (baseAndDigits_octal (hall c (by simp))) hall hr)
  · intro ds dflt h hne h0 hall hr
    obtain ⟨c, cs, rfl⟩ : ∃ c cs, ds = c :: cs := by
      cases ds with
      | nil => exact absurd rfl hne
      | cons c cs => exact ⟨c, cs, rfl⟩
    have hc0 : c ≠ '0' := fun hc => h0 (by simp [hc])
    have hp := goParseUint_of_baseAndDigits (by simp) (baseAndDigits_decimal hc0) hall
      (le_trans hr (by norm_num))
    refine int64FromEnv_of_parse dflt h (goParseInt_nonneg (by simp) ?_ hp hr)
    intro c' hc'
    have hcc : c = c' := by simpa using hc'
    subst hcc
    exact isBaseDigit_ne_sign (hall c (by simp))
  · intro t dflt h hne hall hr
    have hp := goParseUint_of_baseAndDigits (by simp) (baseAndDigits_hex hne) hall
      (le_trans hr (by norm_num))
    refine int64FromEnv_of_parse dflt h (goParseInt_nonneg (by simp) ?_ hp hr)
    intro c' hc'
    have hcc : '0' = c' := by simpa using hc'
    subst hcc
    decide
  · intro t dflt h hne hall hr
    obtain ⟨c, cs, rfl⟩ : ∃ c cs, t = c :: cs := by
      cases t with
      | nil => exact absurd rfl hne
      | cons c cs => exact ⟨c, cs, rfl⟩
    have hp := goParseUint_of_baseAndDigits (by simp)
      (baseAndDigits_octal (hall c (by simp))) hall (le_trans hr (by norm_num))
    refine int64FromEnv_of_parse dflt h (goParseInt_nonneg (by simp) ?_ hp hr)
    intro c' hc'
    have hcc : '0' = c' := by simpa using hc'
    subst hcc
    decide

/-- Witness for C8: `"42"`, `"0x1a"` and `"017"` resolve to 42, 26 and 15
for both the unsigned and the signed resolver. -/
theorem intFromEnv_base_literals_witness :
    uint64FromEnv (fun k => if k = "N" then some "42" else none) "" "n" 5 = 42 ∧
    uint64FromEnv (fun k => if k = "N" then some "0x1a" else none) "" "n" 5 = 26 ∧
    uint64FromEnv (fun k => if k = "N" then some "017" else none) "" "n" 5 = 15 ∧
    int64FromEnv (fun k => if k = "N" then some "42" else none) "" "n" 5 = 42 ∧
    int64FromEnv (fun k => if k = "N" then some "0x1a" else none) "" "n" 5 = 26 ∧
    int64FromEnv (fun k => if k = "N" then some "017" else none) "" "n" 5 = 15 := by
  refine ⟨?_, ?_, ?_, ?_, ?_, ?_⟩
  · exact ((intFromEnv_base_literals (fun k => if k = "N" then some "42" else none)
      "" "n").1 ['4', '2'] 5 (by decide) (by decide) (by decide) (by decide)
      (by decide)).trans (by decide)
  · exact ((intFromEnv_base_literals (fun k => if k = "N" then some "0x1a" else none)
      "" "n").2.1 ['1', 'a'] 5 (by decide) (by decide) (by decide)
      (by decide)).trans (by decide)
  · exact ((intFromEnv_base_literals (fun k => if k = "N" then some "017" else none)
      "" "n").2.2.1 ['1', '7'] 5 (by decide) (by decide) (by decide)
      (by decide)).trans (by decide)
  · exact ((intFromEnv_base_literals (fun k => if k = "N" then some "42" else none)
      "" "n").2.2.2.1 ['4', '2'] 5 (by decide) (by decide) (by decide) (by decide)
      (by decide)).trans (by decide)
  · exact ((intFromEnv_base_literals (fun k => if k = "N" then some "0x1a" else none)
      "" "n").2.2.2.2.1 ['1', 'a'] 5 (by decide) (by decide) (by decide)
      (by decide)).trans (by decide)
  · exact ((intFromEnv_base_literals (fun k => if k = "N" then some "017" else none)
      "" "n").2.2.2.2.2 ['1', '7'] 5 (by decide) (by decide) (by decide)
      (by decide)).trans (by decide)

/-- C1 is false of the code: `UintVar` ignores the caller-supplied pointer.
With declared default 7, caller pointer at address 0 and fresh addresses from
1, the registered binding is the fresh address 1, the caller's cell keeps its
old contents (0) through registration and through parsing the value 42 —
whereas the sibling `Uint64Var` binds the caller's address and the parsed 42
lands there. -/
theorem uintVar_ignores_caller_pointer :
    ((UintVar (fun _ => none) "" 0 "n" 7 ⟨1, [], fun _ => 0⟩).binds = [("n", 1)] ∧
     (UintVar (fun _ => none) "" 0 "n" 7 ⟨1, [], fun _ => 0⟩).heap 0 = 0 ∧
     (parseSet "n" 42 (UintVar (fun _ => none) "" 0 "n" 7 ⟨1, [], fun _ => 0⟩)).heap 0 = 0 ∧
     (parseSet "n" 42 (UintVar (fun _ => none) "" 0 "n" 7 ⟨1, [], fun _ => 0⟩)).heap 1 = 42) ∧
    ((Uint64Var (fun _ => none) "" 0 "n" 7 ⟨1, [], fun _ => 0⟩).binds = [("n", 0)] ∧
     (Uint64Var (fun _ => none) "" 0 "n" 7 ⟨1, [], fun _ => 0⟩).heap 0 = 7 ∧
     (parseSet "n" 42 (Uint64Var (fun _ => none) "" 0 "n" 7 ⟨1, [], fun _ => 0⟩)).heap 0 = 42) := by
  decide

end GoFlag
